import Mathlib

/-!
Verification of the closest-jet bipartite matching routine
`AliAnalysisTaskJetSpectrum::GetClosestJets` and of the particle filter
`AliHFAODMCParticleContainer`, shallowly embedded from the C++ sources.

Conventions of the embedding:
* C arrays of `Int_t` are modelled as functions `ℕ → Int`; a write
  `a[i] = v` becomes `Function.update a i v`.
* Machine floating point quantities enter the routine only through the
  comparisons `dR < dist`; we carry them as exact rationals.  Because the
  pairwise distance `AliAODJet::DeltaR` (external ROOT code, not part of
  this repository) returns the nonnegative value sqrt(Δη² + Δφ²), all of
  its comparisons are preserved by squaring; concrete jet scenarios
  therefore run the routine on squared distances with the squared
  threshold.
* Each `for` loop of the source becomes structural recursion on the upper
  bound: `loop st (n+1)` is the state after executing iterations
  `0, 1, …, n` starting from `st`.
-/

namespace AliPhysics

/-- Modelled from the spec: the array capacity `kMaxJets` is declared in the
class header `AliAnalysisTaskJetSpectrum.h`, which is not among the source
files; the spec describes it as a small fixed constant, e.g. 50. -/
def kMaxJets : ℕ := 50

/-- A jet as the matching routine observes it: pseudorapidity, azimuth and
transverse momentum (lines 543–546 read exactly these accessors).  The full
4-momentum of `AliAODJet` lives in external ROOT classes. -/
structure Jet where
  eta : ℚ
  phi : ℚ
  pt : ℚ

/-- Modelled from the spec: the angular distance `AliAODJet::DeltaR`
(external ROOT code, absent from the sources) is "the Euclidean combination
of pseudorapidity difference and azimuthal-angle difference".  We work with
its square to stay inside ℚ; the azimuth wrap is the identity whenever
`|Δφ| < π`, which holds for every concrete scenario considered here. -/
def deltaRsq (a b : Jet) : ℚ :=
  (a.eta - b.eta) * (a.eta - b.eta) + (a.phi - b.phi) * (a.phi - b.phi)

/-- An `Int_t[kMaxJets]` index array (out-of-range reads of the C array are
modelled by the values of the function beyond `kMaxJets`). -/
abbrev IdxArr := ℕ → Int

/-- The `Int_t iFlag[kMaxJets][kMaxJets]` matrix. -/
abbrev FlagMat := ℕ → ℕ → Int

/-- Write a single cell of the flag matrix. -/
def updFlag (mtx : FlagMat) (i j : ℕ) (v : Int) : FlagMat :=
  fun x y => if x = i ∧ y = j then v else mtx x y

/-- Line 533: the flag matrix after the zero-fill loop. -/
def iFlag0 : FlagMat := fun _ _ => 0

/-- Lines 530–532: the fill loop `for(i<kMaxJets) a[i] = -1`, rendered
pointwise: exactly the slots below `kMaxJets` are set to `-1`, whatever the
caller left there before. -/
def initIndex (a : IdxArr) : IdxArr := fun i => if i < kMaxJets then -1 else a i

/-- `const Float_t maxDist = 1.4` (line 539), as the literal rational 7/5
in normalised constructor form (so that the kernel can evaluate
comparisons against it; `maxDist_eq` states the usual spelling). -/
def maxDist : ℚ := Rat.mk' 7 5 (by norm_num) (by norm_num)

theorem maxDist_eq : maxDist = 7 / 5 := by
  simp only [maxDist, Rat.mk'_eq_divInt]
  norm_num [Rat.divInt_eq_div]

/-- The squared threshold `1.4² = 49/25`, used when the routine is run on
squared distances. -/
def maxDistSq : ℚ := Rat.mk' 49 25 (by norm_num) (by norm_num)

theorem maxDistSq_eq : maxDistSq = 49 / 25 := by
  simp only [maxDistSq, Rat.mk'_eq_divInt]
  norm_num [Rat.divInt_eq_div]

theorem maxDistSq_eq_sq : maxDistSq = maxDist * maxDist := by
  rw [maxDist_eq, maxDistSq_eq]
  norm_num

/-- Reference scan shared by both inner loops (lines 544–552 and 558–564):
starting from candidate `-1` and distance `m`, examine `f 0, …, f (n-1)` in
order, taking a new candidate exactly when its distance is strictly smaller
than the current one. -/
def bestIdx (f : ℕ → ℚ) (m : ℚ) : ℕ → Int × ℚ
  | 0 => (-1, m)
  | n + 1 =>
      if f n < (bestIdx f m n).2 then ((n : Int), f n) else bestIdx f m n

/-- The inner candidate loops of both passes, acting on the real index
array: iteration `k` computes `dR = f k` and on `dR < dist` stores `k` into
slot `slot` and lowers `dist` (lines 544–552 with `slot = ig`,
lines 558–564 with `slot = ir`). -/
def scanInner (f : ℕ → ℚ) (slot : ℕ) : IdxArr × ℚ → ℕ → IdxArr × ℚ
  | st, 0 => st
  | st, n + 1 =>
      let s := scanInner f slot st n
      if f n < s.2 then (Function.update s.1 slot (n : Int), f n) else s

/-- Lines 541–554: for every generated jet `ig`, scan the reconstructed
jets, then `if(iRecIndex[ig]>=0) iFlag[ig][iRecIndex[ig]] += 1`.  The state
is `(iRecIndex, iFlag)`; `d ig ir` stands for
`genJets[ig].DeltaR(&recJets[ir])`. -/
def fwdPass (d : ℕ → ℕ → ℚ) (m : ℚ) (nRec : ℕ) : IdxArr × FlagMat → ℕ → IdxArr × FlagMat
  | st, 0 => st
  | st, n + 1 =>
      let s := fwdPass d m nRec st n
      let r := (scanInner (fun j => d n j) n (s.1, m) nRec).1
      (r, if 0 ≤ r n then updFlag s.2 n (r n).toNat (s.2 n (r n).toNat + 1) else s.2)

/-- Lines 556–566: the pass in the other direction; for every reconstructed
jet `ir`, scan the generated jets, then
`if(iGenIndex[ir]>=0) iFlag[iGenIndex[ir]][ir] += 2`.  The state is
`(iGenIndex, iFlag)`. -/
def bwdPass (d : ℕ → ℕ → ℚ) (m : ℚ) (nGen : ℕ) : IdxArr × FlagMat → ℕ → IdxArr × FlagMat
  | st, 0 => st
  | st, n + 1 =>
      let s := bwdPass d m nGen st n
      let r := (scanInner (fun i => d i n) n (s.1, m) nGen).1
      (r, if 0 ≤ r n then updFlag s.2 (r n).toNat n (s.2 (r n).toNat n + 2) else s.2)

/-- Lines 573–583, the inner consensus loop at row `ig`: every cell
`(ig, ir)` with flag `3` stores the pair into both arrays, every other cell
unconditionally overwrites both slots with `-1`.  The state is
`(iGenIndex, iRecIndex)`. -/
def consInner (flag : FlagMat) (ig : ℕ) : IdxArr × IdxArr → ℕ → IdxArr × IdxArr
  | st, 0 => st
  | st, ir + 1 =>
      let s := consInner flag ig st ir
      if flag ig ir = 3 then
        (Function.update s.1 ir (ig : Int), Function.update s.2 ig (ir : Int))
      else
        (Function.update s.1 ir (-1), Function.update s.2 ig (-1))

/-- Lines 572–585: the outer consensus loop over the generated rows. -/
def consPass (flag : FlagMat) (nRec : ℕ) : IdxArr × IdxArr → ℕ → IdxArr × IdxArr
  | st, 0 => st
  | st, ig + 1 => consInner flag ig (consPass flag nRec st ig) nRec

/-- The two caller-owned output arrays of `GetClosestJets`. -/
structure GCJOut where
  iGenIndex : IdxArr
  iRecIndex : IdxArr

/-- `AliAnalysisTaskJetSpectrum::GetClosestJets` (lines 495–586) over the
distance table `d` of the two jet arrays, threshold `m`, jet counts and the
caller's prior contents of the two output arrays: initialise the arrays and
the flag matrix, return early on an empty side, otherwise run the forward
pass, the backward pass and the consensus pass. -/
def GetClosestJets (d : ℕ → ℕ → ℚ) (m : ℚ) (nGen nRec : ℕ)
    (iGen0 iRec0 : IdxArr) : GCJOut :=
  if nRec = 0 then ⟨initIndex iGen0, initIndex iRec0⟩
  else if nGen = 0 then ⟨initIndex iGen0, initIndex iRec0⟩
  else
    let f := fwdPass d m nRec (initIndex iRec0, iFlag0) nGen
    let b := bwdPass d m nGen (initIndex iGen0, f.2) nRec
    let c := consPass b.2 nRec (b.1, f.1) nGen
    ⟨c.1, c.2⟩

/-- The flag matrix of `GetClosestJets` as it stands after the forward and
backward passes (the value the consensus loop reads). -/
def gcjFlag (d : ℕ → ℕ → ℚ) (m : ℚ) (nGen nRec : ℕ) (iGen0 iRec0 : IdxArr) : FlagMat :=
  (bwdPass d m nGen
    (initIndex iGen0, (fwdPass d m nRec (initIndex iRec0, iFlag0) nGen).2) nRec).2

/-- The candidate the forward pass records for generated jet `g`. -/
def fwdBest (d : ℕ → ℕ → ℚ) (m : ℚ) (nRec g : ℕ) : Int :=
  (bestIdx (fun r => d g r) m nRec).1

/-- The candidate the backward pass records for reconstructed jet `r`. -/
def bwdBest (d : ℕ → ℕ → ℚ) (m : ℚ) (nGen r : ℕ) : Int :=
  (bestIdx (fun g => d g r) m nGen).1

/-- Closed form of the flag matrix after both passes: bit 1 marks the
forward choice of row `g`, bit 2 the backward choice of column `r`. -/
def flagVal (d : ℕ → ℕ → ℚ) (m : ℚ) (nGen nRec : ℕ) (g r : ℕ) : Int :=
  (if g < nGen ∧ fwdBest d m nRec g = (r : Int) then 1 else 0) +
  (if r < nRec ∧ bwdBest d m nGen r = (g : Int) then 2 else 0)

/-- The iRecIndex array as it stands right after the forward pass
(lines 541–554), before the consensus loop runs. -/
def fwdChoice (d : ℕ → ℕ → ℚ) (m : ℚ) (nGen nRec : ℕ) (iRec0 : IdxArr) : IdxArr :=
  (fwdPass d m nRec (initIndex iRec0, iFlag0) nGen).1

/-- The iGenIndex array as it stands right after the backward pass
(lines 556–566), before the consensus loop runs. -/
def bwdChoice (d : ℕ → ℕ → ℚ) (m : ℚ) (nGen nRec : ℕ) (iGen0 : IdxArr) : IdxArr :=
  (bwdPass d m nGen (initIndex iGen0, iFlag0) nRec).1

/-- The state visible to a call of `GetClosestJets` inside `UserExec`
(lines 446–447): the two jet arrays, the two counts (passed by reference)
and the two caller-owned output arrays. -/
structure CallState where
  genJets : ℕ → Jet
  recJets : ℕ → Jet
  nGenJets : ℕ
  nRecJets : ℕ
  iGenIndex : IdxArr
  iRecIndex : IdxArr

/-- One invocation of `GetClosestJets` on the full call state, with the
distance table built from the jets (squared `DeltaR` against the squared
threshold `1.4²`, which preserves every comparison the routine makes). -/
def GetClosestJetsCall (s : CallState) : CallState :=
  { s with
    iGenIndex := (GetClosestJets (fun g r => deltaRsq (s.genJets g) (s.recJets r))
        maxDistSq s.nGenJets s.nRecJets s.iGenIndex s.iRecIndex).iGenIndex
    iRecIndex := (GetClosestJets (fun g r => deltaRsq (s.genJets g) (s.recJets r))
        maxDistSq s.nGenJets s.nRecJets s.iGenIndex s.iRecIndex).iRecIndex }

/-- An index array holding the sentinel everywhere. -/
def negOne : IdxArr := fun _ => -1

/-! ### Closed forms of the loops -/

/-- Full characterisation of the candidate scan: either no candidate lies
strictly below the threshold and the scan returns `-1` with the threshold
untouched, or it returns the first index attaining the strict minimum of
the distances, which lies strictly below the threshold. -/
theorem bestIdx_spec (f : ℕ → ℚ) (m : ℚ) (n : ℕ) :
    ((bestIdx f m n).1 = -1 ∧ (bestIdx f m n).2 = m ∧ ∀ i, i < n → m ≤ f i) ∨
    (∃ j, j < n ∧ (bestIdx f m n).1 = (j : Int) ∧ (bestIdx f m n).2 = f j ∧ f j < m ∧
      (∀ i, i < n → f j ≤ f i) ∧ (∀ i, i < j → f j < f i)) := by
  induction n with
  | zero => exact Or.inl ⟨rfl, rfl, fun i hi => absurd hi (Nat.not_lt_zero i)⟩
  | succ k ih =>
    rcases ih with ⟨h1, h2, h3⟩ | ⟨j, hj, h1, h2, h3, h4, h5⟩
    · by_cases hlt : f k < (bestIdx f m k).2
      · have hm : f k < m := h2 ▸ hlt
        refine Or.inr ⟨k, Nat.lt_succ_self k, ?_, ?_, hm, ?_, ?_⟩
        · simp [bestIdx, hlt]
        · simp [bestIdx, hlt]
        · intro i hi
          rcases Nat.lt_succ_iff_lt_or_eq.mp hi with hik | hik
          · exact le_of_lt (lt_of_lt_of_le hm (h3 i hik))
          · exact hik ▸ le_refl _
        · intro i hik
          exact lt_of_lt_of_le hm (h3 i hik)
      · refine Or.inl ⟨?_, ?_, ?_⟩
        · simpa [bestIdx, hlt] using h1
        · simpa [bestIdx, hlt] using h2
        · intro i hi
          rcases Nat.lt_succ_iff_lt_or_eq.mp hi with hik | hik
          · exact h3 i hik
          · subst hik
            rw [h2] at hlt
            exact not_lt.mp hlt
    · by_cases hlt : f k < (bestIdx f m k).2
      · have hkj : f k < f j := h2 ▸ hlt
        refine Or.inr ⟨k, Nat.lt_succ_self k, ?_, ?_, lt_trans hkj h3, ?_, ?_⟩
        · simp [bestIdx, hlt]
        · simp [bestIdx, hlt]
        · intro i hi
          rcases Nat.lt_succ_iff_lt_or_eq.mp hi with hik | hik
          · exact le_of_lt (lt_of_lt_of_le hkj (h4 i hik))
          · exact hik ▸ le_refl _
        · intro i hik
          exact lt_of_lt_of_le hkj (h4 i hik)
      · refine Or.inr ⟨j, lt_trans hj (Nat.lt_succ_self k), ?_, ?_, h3, ?_, h5⟩
        · simpa [bestIdx, hlt] using h1
        · simpa [bestIdx, hlt] using h2
        · intro i hi
          rcases Nat.lt_succ_iff_lt_or_eq.mp hi with hik | hik
          · exact h4 i hik
          · subst hik
            rw [h2] at hlt
            exact not_lt.mp hlt

/-- The scan result is either `-1` or a valid index below the bound. -/
theorem bestIdx_fst_cases (f : ℕ → ℚ) (m : ℚ) (n : ℕ) :
    (bestIdx f m n).1 = -1 ∨ ∃ j, j < n ∧ (bestIdx f m n).1 = (j : Int) := by
  rcases bestIdx_spec f m n with ⟨h1, _, _⟩ | ⟨j, hj, h1, _⟩
  · exact Or.inl h1
  · exact Or.inr ⟨j, hj, h1⟩

/-- The inner loop only writes slot `slot`, leaving there exactly the scan
result, provided the slot held the sentinel at loop entry. -/
theorem scanInner_eq (f : ℕ → ℚ) (slot : ℕ) (a : IdxArr) (m : ℚ)
    (h : a slot = -1) (n : ℕ) :
    scanInner f slot (a, m) n =
      (Function.update a slot (bestIdx f m n).1, (bestIdx f m n).2) := by
  induction n with
  | zero =>
    have hupd : Function.update a slot (-1 : Int) = a := by
      rw [← h]
      exact Function.update_eq_self slot a
    simp [scanInner, bestIdx, hupd]
  | succ k ih =>
    show (if f k < (scanInner f slot (a, m) k).2 then
        (Function.update (scanInner f slot (a, m) k).1 slot (k : Int), f k)
      else scanInner f slot (a, m) k) = _
    rw [ih]
    by_cases hlt : f k < (bestIdx f m k).2
    · simp only [hlt, if_pos, bestIdx, Function.update_idem]
    · simp only [bestIdx, hlt, if_neg, not_false_iff]

/-- Closed form of the forward pass: slots `[0, n)` of `iRecIndex` receive
each row's scan result, and the flag matrix gains bit 1 exactly at the cell
`(g, fwdBest g)` of every row `g` whose scan found a candidate. -/
theorem fwdPass_eq (d : ℕ → ℕ → ℚ) (m : ℚ) (nRec : ℕ) (a : IdxArr) (F : FlagMat)
    (n : ℕ) (h : ∀ g, g < n → a g = -1) :
    (fwdPass d m nRec (a, F) n).1 = (fun g => if g < n then fwdBest d m nRec g else a g) ∧
    (fwdPass d m nRec (a, F) n).2 =
      (fun (g r : ℕ) =>
        if g < n ∧ fwdBest d m nRec g = (r : Int) then F g r + 1 else F g r) := by
  induction n with
  | zero =>
    constructor
    · funext g
      simp [fwdPass]
    · funext g r
      simp [fwdPass]
  | succ k ih =>
    obtain ⟨ih1, ih2⟩ := ih (fun g hg => h g (lt_trans hg (Nat.lt_succ_self k)))
    have hk : (fwdPass d m nRec (a, F) k).1 k = -1 := by
      rw [ih1]
      simp [h k (Nat.lt_succ_self k)]
    have hscan := scanInner_eq (fun j => d k j) k ((fwdPass d m nRec (a, F) k).1) m hk nRec
    have hstep : fwdPass d m nRec (a, F) (k + 1) =
        ((scanInner (fun j => d k j) k ((fwdPass d m nRec (a, F) k).1, m) nRec).1,
          if 0 ≤ (scanInner (fun j => d k j) k ((fwdPass d m nRec (a, F) k).1, m) nRec).1 k then
            updFlag (fwdPass d m nRec (a, F) k).2 k
              ((scanInner (fun j => d k j) k ((fwdPass d m nRec (a, F) k).1, m) nRec).1 k).toNat
              ((fwdPass d m nRec (a, F) k).2 k
                ((scanInner (fun j => d k j) k ((fwdPass d m nRec (a, F) k).1, m) nRec).1 k).toNat + 1)
          else (fwdPass d m nRec (a, F) k).2) := rfl
    have hr1 : (scanInner (fun j => d k j) k ((fwdPass d m nRec (a, F) k).1, m) nRec).1 =
        Function.update (fwdPass d m nRec (a, F) k).1 k (fwdBest d m nRec k) := by
      rw [hscan]
      rfl
    have hrk : (scanInner (fun j => d k j) k ((fwdPass d m nRec (a, F) k).1, m) nRec).1 k =
        fwdBest d m nRec k := by
      rw [hr1]
      exact Function.update_same k _ _
    constructor
    · rw [hstep]
      show (scanInner (fun j => d k j) k ((fwdPass d m nRec (a, F) k).1, m) nRec).1 = _
      rw [hr1, ih1]
      funext g
      by_cases hgk : g = k
      · subst hgk
        simp [Function.update_same, Nat.lt_succ_self]
      · rw [Function.update_noteq hgk]
        by_cases hgl : g < k
        · simp [hgl, lt_trans hgl (Nat.lt_succ_self k)]
        · have : ¬ g < k + 1 := by omega
          simp [hgl, this]
    · have hflag : (fwdPass d m nRec (a, F) (k + 1)).2 =
          (if 0 ≤ fwdBest d m nRec k then
            updFlag (fwdPass d m nRec (a, F) k).2 k (fwdBest d m nRec k).toNat
              ((fwdPass d m nRec (a, F) k).2 k (fwdBest d m nRec k).toNat + 1)
          else (fwdPass d m nRec (a, F) k).2) := by
        rw [hstep]
        dsimp only
        rw [hrk]
      rw [hflag, ih2]
      rcases bestIdx_fst_cases (fun j => d k j) m nRec with hneg | ⟨j, hj, hpos⟩
      · have hneg2 : fwdBest d m nRec k = -1 := hneg
        rw [hneg2]
        rw [if_neg (by decide : ¬ (0 : Int) ≤ -1)]
        funext g r
        have hiff : (g < k + 1 ∧ fwdBest d m nRec g = (r : Int)) ↔
            (g < k ∧ fwdBest d m nRec g = (r : Int)) := by
          constructor
          · rintro ⟨hg, hp⟩
            refine ⟨?_, hp⟩
            rcases Nat.lt_succ_iff_lt_or_eq.mp hg with hcase | hcase
            · exact hcase
            · exfalso
              rw [hcase, hneg2] at hp
              omega
          · rintro ⟨hg, hp⟩
            exact ⟨Nat.lt_succ_of_lt hg, hp⟩
        exact if_congr hiff.symm rfl rfl
      · have hposk : fwdBest d m nRec k = (j : Int) := hpos
        rw [hposk]
        rw [if_pos (by exact_mod_cast Int.natCast_nonneg j : (0 : Int) ≤ (j : Int))]
        funext g r
        simp only [updFlag]
        have htn : ((j : Int)).toNat = j := Int.toNat_natCast j
        rw [htn]
        by_cases hgk : g = k
        · by_cases hrj : r = j
          · rw [if_pos ⟨hgk, hrj⟩]
            have hc1 : ¬ (k < k ∧ fwdBest d m nRec k = (j : Int)) :=
              fun hc => absurd hc.1 (lt_irrefl k)
            rw [if_neg hc1]
            have hc2 : g < k + 1 ∧ fwdBest d m nRec g = (r : Int) := by
              refine ⟨by omega, ?_⟩
              rw [hgk, hrj, hposk]
            rw [if_pos hc2, hgk, hrj]
          · rw [if_neg (fun hc => hrj hc.2)]
            have hc1 : ¬ (g < k ∧ fwdBest d m nRec g = (r : Int)) := by
              rintro ⟨hg, _⟩
              rw [hgk] at hg
              exact absurd hg (lt_irrefl k)
            have hc2 : ¬ (g < k + 1 ∧ fwdBest d m nRec g = (r : Int)) := by
              rintro ⟨_, hp⟩
              rw [hgk, hposk] at hp
              have : j = r := by exact_mod_cast hp
              exact hrj this.symm
            rw [if_neg hc1, if_neg hc2]
        · rw [if_neg (fun hc => hgk hc.1)]
          have hiff : (g < k + 1 ∧ fwdBest d m nRec g = (r : Int)) ↔
              (g < k ∧ fwdBest d m nRec g = (r : Int)) := by
            constructor
            · rintro ⟨hg, hp⟩
              exact ⟨by omega, hp⟩
            · rintro ⟨hg, hp⟩
              exact ⟨Nat.lt_succ_of_lt hg, hp⟩
          exact if_congr hiff.symm rfl rfl

/-- Closed form of the backward pass: slots `[0, n)` of `iGenIndex` receive
each column's scan result, and the flag matrix gains bit 2 exactly at the
cell `(bwdBest r, r)` of every column `r` whose scan found a candidate. -/
theorem bwdPass_eq (d : ℕ → ℕ → ℚ) (m : ℚ) (nGen : ℕ) (a : IdxArr) (F : FlagMat)
    (n : ℕ) (h : ∀ r, r < n → a r = -1) :
    (bwdPass d m nGen (a, F) n).1 = (fun r => if r < n then bwdBest d m nGen r else a r) ∧
    (bwdPass d m nGen (a, F) n).2 =
      (fun (g r : ℕ) =>
        if r < n ∧ bwdBest d m nGen r = (g : Int) then F g r + 2 else F g r) := by
  induction n with
  | zero =>
    constructor
    · funext r
      simp [bwdPass]
    · funext g r
      simp [bwdPass]
  | succ k ih =>
    obtain ⟨ih1, ih2⟩ := ih (fun r hr => h r (lt_trans hr (Nat.lt_succ_self k)))
    have hk : (bwdPass d m nGen (a, F) k).1 k = -1 := by
      rw [ih1]
      simp [h k (Nat.lt_succ_self k)]
    have hscan := scanInner_eq (fun i => d i k) k ((bwdPass d m nGen (a, F) k).1) m hk nGen
    have hstep : bwdPass d m nGen (a, F) (k + 1) =
        ((scanInner (fun i => d i k) k ((bwdPass d m nGen (a, F) k).1, m) nGen).1,
          if 0 ≤ (scanInner (fun i => d i k) k ((bwdPass d m nGen (a, F) k).1, m) nGen).1 k then
            updFlag (bwdPass d m nGen (a, F) k).2
              ((scanInner (fun i => d i k) k ((bwdPass d m nGen (a, F) k).1, m) nGen).1 k).toNat k
              ((bwdPass d m nGen (a, F) k).2
                ((scanInner (fun i => d i k) k ((bwdPass d m nGen (a, F) k).1, m) nGen).1 k).toNat k + 2)
          else (bwdPass d m nGen (a, F) k).2) := rfl
    have hr1 : (scanInner (fun i => d i k) k ((bwdPass d m nGen (a, F) k).1, m) nGen).1 =
        Function.update (bwdPass d m nGen (a, F) k).1 k (bwdBest d m nGen k) := by
      rw [hscan]
      rfl
    have hrk : (scanInner (fun i => d i k) k ((bwdPass d m nGen (a, F) k).1, m) nGen).1 k =
        bwdBest d m nGen k := by
      rw [hr1]
      exact Function.update_same k _ _
    constructor
    · rw [hstep]
      show (scanInner (fun i => d i k) k ((bwdPass d m nGen (a, F) k).1, m) nGen).1 = _
      rw [hr1, ih1]
      funext r
      by_cases hrkk : r = k
      · subst hrkk
        simp [Function.update_same, Nat.lt_succ_self]
      · rw [Function.update_noteq hrkk]
        by_cases hrl : r < k
        · simp [hrl, lt_trans hrl (Nat.lt_succ_self k)]
        · have : ¬ r < k + 1 := by omega
          simp [hrl, this]
    · have hflag : (bwdPass d m nGen (a, F) (k + 1)).2 =
          (if 0 ≤ bwdBest d m nGen k then
            updFlag (bwdPass d m nGen (a, F) k).2 (bwdBest d m nGen k).toNat k
              ((bwdPass d m nGen (a, F) k).2 (bwdBest d m nGen k).toNat k + 2)
          else (bwdPass d m nGen (a, F) k).2) := by
        rw [hstep]
        dsimp only
        rw [hrk]
      rw [hflag, ih2]
      rcases bestIdx_fst_cases (fun i => d i k) m nGen with hneg | ⟨j, hj, hpos⟩
      · have hneg2 : bwdBest d m nGen k = -1 := hneg
        rw [hneg2]
        rw [if_neg (by decide : ¬ (0 : Int) ≤ -1)]
        funext g r
        have hiff : (r < k + 1 ∧ bwdBest d m nGen r = (g : Int)) ↔
            (r < k ∧ bwdBest d m nGen r = (g : Int)) := by
          constructor
          · rintro ⟨hr, hp⟩
            refine ⟨?_, hp⟩
            rcases Nat.lt_succ_iff_lt_or_eq.mp hr with hcase | hcase
            · exact hcase
            · exfalso
              rw [hcase, hneg2] at hp
              omega
          · rintro ⟨hr, hp⟩
            exact ⟨Nat.lt_succ_of_lt hr, hp⟩
        exact if_congr hiff.symm rfl rfl
      · have hposk : bwdBest d m nGen k = (j : Int) := hpos
        rw [hposk]
        rw [if_pos (by exact_mod_cast Int.natCast_nonneg j : (0 : Int) ≤ (j : Int))]
        funext g r
        simp only [updFlag]
        have htn : ((j : Int)).toNat = j := Int.toNat_natCast j
        rw [htn]
        by_cases hrkk : r = k
        · by_cases hgj : g = j
          · rw [if_pos ⟨hgj, hrkk⟩]
            have hc1 : ¬ (k < k ∧ bwdBest d m nGen k = (j : Int)) :=
              fun hc => absurd hc.1 (lt_irrefl k)
            rw [if_neg hc1]
            have hc2 : r < k + 1 ∧ bwdBest d m nGen r = (g : Int) := by
              refine ⟨by omega, ?_⟩
              rw [hrkk, hgj, hposk]
            rw [if_pos hc2, hrkk, hgj]
          · rw [if_neg (fun hc => hgj hc.1)]
            have hc1 : ¬ (r < k ∧ bwdBest d m nGen r = (g : Int)) := by
              rintro ⟨hr, _⟩
              rw [hrkk] at hr
              exact absurd hr (lt_irrefl k)
            have hc2 : ¬ (r < k + 1 ∧ bwdBest d m nGen r = (g : Int)) := by
              rintro ⟨_, hp⟩
              rw [hrkk, hposk] at hp
              have : j = g := by exact_mod_cast hp
              exact hgj this.symm
            rw [if_neg hc1, if_neg hc2]
        · rw [if_neg (fun hc => hrkk hc.2)]
          have hiff : (r < k + 1 ∧ bwdBest d m nGen r = (g : Int)) ↔
              (r < k ∧ bwdBest d m nGen r = (g : Int)) := by
            constructor
            · rintro ⟨hr, hp⟩
              exact ⟨by omega, hp⟩
            · rintro ⟨hr, hp⟩
              exact ⟨Nat.lt_succ_of_lt hr, hp⟩
          exact if_congr hiff.symm rfl rfl

/-- Closed form of the inner consensus loop at row `ig`: every `iGenIndex`
slot below `n` holds the verdict of its own cell, while the single
`iRecIndex` slot `ig` holds the verdict of the last cell `(ig, n-1)` —
earlier verdicts for slot `ig` are overwritten. -/
theorem consInner_eq (flag : FlagMat) (ig : ℕ) (st : IdxArr × IdxArr) (n : ℕ) :
    (consInner flag ig st n).1 =
      (fun r => if r < n then (if flag ig r = 3 then (ig : Int) else -1) else st.1 r) ∧
    (consInner flag ig st n).2 =
      (fun g => if g = ig ∧ 0 < n then
          (if flag ig (n - 1) = 3 then ((n - 1 : ℕ) : Int) else -1)
        else st.2 g) := by
  induction n with
  | zero =>
    constructor
    · funext r
      simp [consInner]
    · funext g
      simp [consInner]
  | succ k ih =>
    obtain ⟨ih1, ih2⟩ := ih
    have hstep : consInner flag ig st (k + 1) =
        (if flag ig k = 3 then
          (Function.update (consInner flag ig st k).1 k (ig : Int),
            Function.update (consInner flag ig st k).2 ig (k : Int))
        else
          (Function.update (consInner flag ig st k).1 k (-1),
            Function.update (consInner flag ig st k).2 ig (-1))) := rfl
    by_cases hf : flag ig k = 3
    · rw [hstep, if_pos hf]
      constructor
      · show Function.update (consInner flag ig st k).1 k (ig : Int) = _
        rw [ih1]
        funext r
        by_cases hrk : r = k
        · subst hrk
          simp [Function.update_same, Nat.lt_succ_self, hf]
        · rw [Function.update_noteq hrk]
          by_cases hrl : r < k
          · simp [hrl, lt_trans hrl (Nat.lt_succ_self k)]
          · have : ¬ r < k + 1 := by omega
            simp [hrl, this]
      · show Function.update (consInner flag ig st k).2 ig (k : Int) = _
        rw [ih2]
        funext g
        by_cases hgi : g = ig
        · subst hgi
          rw [Function.update_same]
          have hc : g = g ∧ 0 < k + 1 := ⟨rfl, Nat.succ_pos k⟩
          rw [if_pos hc]
          simp [hf]
        · rw [Function.update_noteq hgi]
          rw [if_neg (fun hc => hgi hc.1), if_neg (fun hc => hgi hc.1)]
    · rw [hstep, if_neg hf]
      constructor
      · show Function.update (consInner flag ig st k).1 k (-1) = _
        rw [ih1]
        funext r
        by_cases hrk : r = k
        · subst hrk
          simp [Function.update_same, Nat.lt_succ_self, hf]
        · rw [Function.update_noteq hrk]
          by_cases hrl : r < k
          · simp [hrl, lt_trans hrl (Nat.lt_succ_self k)]
          · have : ¬ r < k + 1 := by omega
            simp [hrl, this]
      · show Function.update (consInner flag ig st k).2 ig (-1) = _
        rw [ih2]
        funext g
        by_cases hgi : g = ig
        · subst hgi
          rw [Function.update_same]
          have hc : g = g ∧ 0 < k + 1 := ⟨rfl, Nat.succ_pos k⟩
          rw [if_pos hc]
          simp [hf]
        · rw [Function.update_noteq hgi]
          rw [if_neg (fun hc => hgi hc.1), if_neg (fun hc => hgi hc.1)]

/-- Closed form of the whole consensus pass: every `iGenIndex` slot below
`nRec` ends with the verdict of the cell in the LAST generated row
`(n-1, r)`, and every `iRecIndex` slot `g` below `n` ends with the verdict
of the cell in the LAST reconstructed column `(g, nRec-1)`. -/
theorem consPass_eq (flag : FlagMat) (nRec : ℕ) (st : IdxArr × IdxArr) (n : ℕ)
    (h : 0 < nRec) :
    (consPass flag nRec st n).1 =
      (fun r => if r < nRec ∧ 0 < n then
          (if flag (n - 1) r = 3 then ((n - 1 : ℕ) : Int) else -1)
        else st.1 r) ∧
    (consPass flag nRec st n).2 =
      (fun g => if g < n then
          (if flag g (nRec - 1) = 3 then ((nRec - 1 : ℕ) : Int) else -1)
        else st.2 g) := by
  induction n with
  | zero =>
    constructor
    · funext r
      simp [consPass]
    · funext g
      simp [consPass]
  | succ k ih =>
    obtain ⟨ih1, ih2⟩ := ih
    have hstep : consPass flag nRec st (k + 1) =
        consInner flag k (consPass flag nRec st k) nRec := rfl
    obtain ⟨hc1, hc2⟩ := consInner_eq flag k (consPass flag nRec st k) nRec
    constructor
    · rw [hstep, hc1]
      funext r
      simp only [Nat.succ_sub_one]
      by_cases hr : r < nRec
      · have h2 : r < nRec ∧ 0 < k + 1 := ⟨hr, Nat.succ_pos k⟩
        rw [if_pos hr, if_pos h2]
      · rw [if_neg hr, if_neg (fun hc => hr (And.left hc))]
        simp only [congrFun ih1 r]
        rw [if_neg (fun hc => hr (And.left hc))]
    · rw [hstep, hc2]
      funext g
      by_cases hgk : g = k
      · have hcnd : g = k ∧ 0 < nRec := ⟨hgk, h⟩
        have hlt : g < k + 1 := by omega
        rw [if_pos hcnd, if_pos hlt, hgk]
      · rw [if_neg (fun hc => hgk (And.left hc))]
        simp only [congrFun ih2 g]
        by_cases hgl : g < k
        · rw [if_pos hgl, if_pos (Nat.lt_succ_of_lt hgl)]
        · have hnl : ¬ g < k + 1 := by omega
          rw [if_neg hgl, if_neg hnl]

/-- On an empty side the routine returns the freshly initialised arrays
untouched (lines 536–537), for any distance table and threshold. -/
theorem gcj_degenerate (d : ℕ → ℕ → ℚ) (m : ℚ) (nGen nRec : ℕ) (iGen0 iRec0 : IdxArr)
    (h : nGen = 0 ∨ nRec = 0) :
    GetClosestJets d m nGen nRec iGen0 iRec0 = ⟨initIndex iGen0, initIndex iRec0⟩ := by
  rcases h with h | h
  · subst h
    by_cases hr : nRec = 0
    · simp [GetClosestJets, hr]
    · simp [GetClosestJets, hr]
  · subst h
    simp [GetClosestJets]

/-- The flag matrix the consensus loop reads agrees with its closed form
`flagVal`. -/
theorem gcjFlag_eq (d : ℕ → ℕ → ℚ) (m : ℚ) (nGen nRec : ℕ) (iGen0 iRec0 : IdxArr)
    (hgk : nGen ≤ kMaxJets) (hrk : nRec ≤ kMaxJets) :
    gcjFlag d m nGen nRec iGen0 iRec0 = flagVal d m nGen nRec := by
  have hIR : ∀ g, g < nGen → initIndex iRec0 g = -1 := by
    intro g hg
    simp [initIndex, lt_of_lt_of_le hg hgk]
  have hIG : ∀ r, r < nRec → initIndex iGen0 r = -1 := by
    intro r hr
    simp [initIndex, lt_of_lt_of_le hr hrk]
  obtain ⟨_, hf2⟩ := fwdPass_eq d m nRec (initIndex iRec0) iFlag0 nGen hIR
  obtain ⟨_, hb2⟩ := bwdPass_eq d m nGen (initIndex iGen0)
    ((fwdPass d m nRec (initIndex iRec0, iFlag0) nGen).2) nRec hIG
  show (bwdPass d m nGen
      (initIndex iGen0, (fwdPass d m nRec (initIndex iRec0, iFlag0) nGen).2) nRec).2 = _
  funext g r
  simp only [congrFun (congrFun hb2 g) r]
  simp only [congrFun (congrFun hf2 g) r]
  simp only [flagVal, iFlag0]
  by_cases c1 : g < nGen ∧ fwdBest d m nRec g = (r : Int) <;>
    by_cases c2 : r < nRec ∧ bwdBest d m nGen r = (g : Int) <;>
      simp [c1, c2]

/-- A cell carries flag 3 exactly when it is both its row's forward choice
and its column's backward choice. -/
theorem flagVal_three_iff (d : ℕ → ℕ → ℚ) (m : ℚ) (nGen nRec g r : ℕ) :
    flagVal d m nGen nRec g r = 3 ↔
      ((g < nGen ∧ fwdBest d m nRec g = (r : Int)) ∧
        (r < nRec ∧ bwdBest d m nGen r = (g : Int))) := by
  unfold flagVal
  by_cases c1 : g < nGen ∧ fwdBest d m nRec g = (r : Int) <;>
    by_cases c2 : r < nRec ∧ bwdBest d m nGen r = (g : Int) <;>
      simp [c1, c2]

/-- Master closed form of `GetClosestJets` on nonempty inputs: every
`iGenIndex` slot below `nRec` holds the verdict of the cell in the last
generated row, every `iRecIndex` slot below `nGen` holds the verdict of the
cell in the last reconstructed column, and all other slots hold their
initialised values. -/
theorem gcj_closed (d : ℕ → ℕ → ℚ) (m : ℚ) (nGen nRec : ℕ) (iGen0 iRec0 : IdxArr)
    (hg : 0 < nGen) (hr : 0 < nRec) (hgk : nGen ≤ kMaxJets) (hrk : nRec ≤ kMaxJets) :
    (GetClosestJets d m nGen nRec iGen0 iRec0).iGenIndex =
      (fun r => if r < nRec then
          (if flagVal d m nGen nRec (nGen - 1) r = 3 then ((nGen - 1 : ℕ) : Int) else -1)
        else initIndex iGen0 r) ∧
    (GetClosestJets d m nGen nRec iGen0 iRec0).iRecIndex =
      (fun g => if g < nGen then
          (if flagVal d m nGen nRec g (nRec - 1) = 3 then ((nRec - 1 : ℕ) : Int) else -1)
        else initIndex iRec0 g) := by
  have hne1 : ¬ nRec = 0 := by omega
  have hne2 : ¬ nGen = 0 := by omega
  have hIR : ∀ g, g < nGen → initIndex iRec0 g = -1 := by
    intro g hgl
    simp [initIndex, lt_of_lt_of_le hgl hgk]
  have hIG : ∀ r, r < nRec → initIndex iGen0 r = -1 := by
    intro r hrl
    simp [initIndex, lt_of_lt_of_le hrl hrk]
  obtain ⟨hfw1, _⟩ := fwdPass_eq d m nRec (initIndex iRec0) iFlag0 nGen hIR
  obtain ⟨hbw1, _⟩ := bwdPass_eq d m nGen (initIndex iGen0)
    ((fwdPass d m nRec (initIndex iRec0, iFlag0) nGen).2) nRec hIG
  have hmain : GetClosestJets d m nGen nRec iGen0 iRec0 =
      ⟨(consPass (gcjFlag d m nGen nRec iGen0 iRec0) nRec
          ((bwdPass d m nGen
              (initIndex iGen0, (fwdPass d m nRec (initIndex iRec0, iFlag0) nGen).2) nRec).1,
            (fwdPass d m nRec (initIndex iRec0, iFlag0) nGen).1) nGen).1,
        (consPass (gcjFlag d m nGen nRec iGen0 iRec0) nRec
          ((bwdPass d m nGen
              (initIndex iGen0, (fwdPass d m nRec (initIndex iRec0, iFlag0) nGen).2) nRec).1,
            (fwdPass d m nRec (initIndex iRec0, iFlag0) nGen).1) nGen).2⟩ := by
    show (if nRec = 0 then (⟨initIndex iGen0, initIndex iRec0⟩ : GCJOut)
      else if nGen = 0 then ⟨initIndex iGen0, initIndex iRec0⟩ else _) = _
    rw [if_neg hne1, if_neg hne2]
    rfl
  obtain ⟨hcp1, hcp2⟩ := consPass_eq (gcjFlag d m nGen nRec iGen0 iRec0) nRec
    ((bwdPass d m nGen
        (initIndex iGen0, (fwdPass d m nRec (initIndex iRec0, iFlag0) nGen).2) nRec).1,
      (fwdPass d m nRec (initIndex iRec0, iFlag0) nGen).1) nGen hr
  constructor
  · rw [hmain]
    show (consPass (gcjFlag d m nGen nRec iGen0 iRec0) nRec _ nGen).1 = _
    rw [hcp1]
    rw [gcjFlag_eq d m nGen nRec iGen0 iRec0 hgk hrk]
    funext r
    by_cases hrn : r < nRec
    · have hcnd : r < nRec ∧ 0 < nGen := ⟨hrn, hg⟩
      rw [if_pos hcnd, if_pos hrn]
    · rw [if_neg (fun hc => hrn (And.left hc)), if_neg hrn]
      simp only [congrFun hbw1 r]
      rw [if_neg hrn]
  · rw [hmain]
    show (consPass (gcjFlag d m nGen nRec iGen0 iRec0) nRec _ nGen).2 = _
    rw [hcp2]
    rw [gcjFlag_eq d m nGen nRec iGen0 iRec0 hgk hrk]
    funext g
    by_cases hgn : g < nGen
    · rw [if_pos hgn, if_pos hgn]
    · rw [if_neg hgn, if_neg hgn]
      simp only [congrFun hfw1 g]
      rw [if_neg hgn]

/-- Pointwise form of `gcj_closed` for an in-range `iGenIndex` slot. -/
theorem gcj_iGenIndex_lt (d : ℕ → ℕ → ℚ) (m : ℚ) (nGen nRec : ℕ) (iGen0 iRec0 : IdxArr)
    (hg : 0 < nGen) (hr : 0 < nRec) (hgk : nGen ≤ kMaxJets) (hrk : nRec ≤ kMaxJets)
    (r : ℕ) (hrn : r < nRec) :
    (GetClosestJets d m nGen nRec iGen0 iRec0).iGenIndex r =
      (if flagVal d m nGen nRec (nGen - 1) r = 3 then ((nGen - 1 : ℕ) : Int) else -1) := by
  have h := congrFun (gcj_closed d m nGen nRec iGen0 iRec0 hg hr hgk hrk).1 r
  simp only [h]
  rw [if_pos hrn]

/-- Pointwise form of `gcj_closed` for an in-range `iRecIndex` slot. -/
theorem gcj_iRecIndex_lt (d : ℕ → ℕ → ℚ) (m : ℚ) (nGen nRec : ℕ) (iGen0 iRec0 : IdxArr)
    (hg : 0 < nGen) (hr : 0 < nRec) (hgk : nGen ≤ kMaxJets) (hrk : nRec ≤ kMaxJets)
    (g : ℕ) (hgn : g < nGen) :
    (GetClosestJets d m nGen nRec iGen0 iRec0).iRecIndex g =
      (if flagVal d m nGen nRec g (nRec - 1) = 3 then ((nRec - 1 : ℕ) : Int) else -1) := by
  have h := congrFun (gcj_closed d m nGen nRec iGen0 iRec0 hg hr hgk hrk).2 g
  simp only [h]
  rw [if_pos hgn]

/-- Every `iGenIndex` slot at or above `nRecJets` (and below the array
capacity) ends as the sentinel. -/
theorem gcj_iGenIndex_ge (d : ℕ → ℕ → ℚ) (m : ℚ) (nGen nRec : ℕ) (iGen0 iRec0 : IdxArr)
    (hgk : nGen ≤ kMaxJets) (hrk : nRec ≤ kMaxJets)
    (r : ℕ) (hge : nRec ≤ r) (hlt : r < kMaxJets) :
    (GetClosestJets d m nGen nRec iGen0 iRec0).iGenIndex r = -1 := by
  by_cases hdeg : nGen = 0 ∨ nRec = 0
  · rw [gcj_degenerate d m nGen nRec iGen0 iRec0 hdeg]
    show initIndex iGen0 r = -1
    simp [initIndex, hlt]
  · push_neg at hdeg
    have hg : 0 < nGen := Nat.pos_of_ne_zero hdeg.1
    have hr : 0 < nRec := Nat.pos_of_ne_zero hdeg.2
    have h := congrFun (gcj_closed d m nGen nRec iGen0 iRec0 hg hr hgk hrk).1 r
    simp only [h]
    rw [if_neg (by omega : ¬ r < nRec)]
    simp [initIndex, hlt]

/-- Every `iRecIndex` slot at or above `nGenJets` (and below the array
capacity) ends as the sentinel. -/
theorem gcj_iRecIndex_ge (d : ℕ → ℕ → ℚ) (m : ℚ) (nGen nRec : ℕ) (iGen0 iRec0 : IdxArr)
    (hgk : nGen ≤ kMaxJets) (hrk : nRec ≤ kMaxJets)
    (g : ℕ) (hge : nGen ≤ g) (hlt : g < kMaxJets) :
    (GetClosestJets d m nGen nRec iGen0 iRec0).iRecIndex g = -1 := by
  by_cases hdeg : nGen = 0 ∨ nRec = 0
  · rw [gcj_degenerate d m nGen nRec iGen0 iRec0 hdeg]
    show initIndex iRec0 g = -1
    simp [initIndex, hlt]
  · push_neg at hdeg
    have hg : 0 < nGen := Nat.pos_of_ne_zero hdeg.1
    have hr : 0 < nRec := Nat.pos_of_ne_zero hdeg.2
    have h := congrFun (gcj_closed d m nGen nRec iGen0 iRec0 hg hr hgk hrk).2 g
    simp only [h]
    rw [if_neg (by omega : ¬ g < nGen)]
    simp [initIndex, hlt]

/-! ### Concrete inputs used by counterexamples and witnesses -/

/-- Two generated jets against one reconstructed jet: the first generated
jet at distance 1 (inside the 1.4 threshold), the second at distance 2
(outside).  The mutual match is `G0 ↔ R0`, recorded at cell `(0,0)`. -/
def dA : ℕ → ℕ → ℚ := fun g _ => if g = 0 then 1 else 2

/-- A single mutually matched pair at distance 1. -/
def dOne : ℕ → ℕ → ℚ := fun _ _ => 1

/-- All pairs far apart (distance 2, beyond the 1.4 threshold). -/
def dFar : ℕ → ℕ → ℚ := fun _ _ => 2

/-! ### The claims -/

/-- Claim C2: with both inputs nonempty, the final output is determined by
the last consensus-loop cell touching each slot: `iGenIndex[r]` holds
`nGenJets-1` exactly when the flag cell `(nGenJets-1, r)` is 3 and the
sentinel otherwise, and `iRecIndex[g]` holds `nRecJets-1` exactly when the
flag cell `(g, nRecJets-1)` is 3 and the sentinel otherwise. -/
theorem claim_C2 (d : ℕ → ℕ → ℚ) (m : ℚ) (nGen nRec : ℕ) (iGen0 iRec0 : IdxArr)
    (hg : 1 ≤ nGen) (hr : 1 ≤ nRec) (hgk : nGen ≤ kMaxJets) (hrk : nRec ≤ kMaxJets) :
    (∀ r, r < nRec → (GetClosestJets d m nGen nRec iGen0 iRec0).iGenIndex r =
      (if gcjFlag d m nGen nRec iGen0 iRec0 (nGen - 1) r = 3
        then ((nGen - 1 : ℕ) : Int) else -1)) ∧
    (∀ g, g < nGen → (GetClosestJets d m nGen nRec iGen0 iRec0).iRecIndex g =
      (if gcjFlag d m nGen nRec iGen0 iRec0 g (nRec - 1) = 3
        then ((nRec - 1 : ℕ) : Int) else -1)) := by
  rw [gcjFlag_eq d m nGen nRec iGen0 iRec0 hgk hrk]
  constructor
  · intro r hrn
    exact gcj_iGenIndex_lt d m nGen nRec iGen0 iRec0 hg hr hgk hrk r hrn
  · intro g hgn
    exact gcj_iRecIndex_lt d m nGen nRec iGen0 iRec0 hg hr hgk hrk g hgn

theorem claim_C2_witness :
    (GetClosestJets dA maxDist 2 1 negOne negOne).iGenIndex 0 =
      (if gcjFlag dA maxDist 2 1 negOne negOne 1 0 = 3 then ((1 : ℕ) : Int) else -1) :=
  (claim_C2 dA maxDist 2 1 negOne negOne (by decide) (by decide) (by decide)
    (by decide)).1 0 (by decide)

/-- Claim C1, counterexample: with two generated jets (distances 1 and 2 to
the single reconstructed jet), `iRecIndex[0] = 0` survives but
`iGenIndex[0]` is overwritten back to the sentinel by the later consensus
cell `(1,0)`, so the output mapping is not symmetric. -/
theorem claim_C1_cex :
    ¬ (∀ g r : ℕ, g < 2 →
        (GetClosestJets dA maxDist 2 1 negOne negOne).iRecIndex g = (r : Int) →
        (GetClosestJets dA maxDist 2 1 negOne negOne).iGenIndex r = (g : Int)) := by
  intro h
  have h2 := h 0 0 (by decide) (by decide)
  exact absurd h2 (by decide)

/-- Claim C1 (amended): the mapping is symmetric on every pair recorded on
BOTH sides — if `iRecIndex[g] = r ≠ -1` and the slot `iGenIndex[r]` also
records a match, then `iGenIndex[r] = g`, and vice versa.  (The unamended
claim fails because the consensus loop can overwrite one side of an
accepted pair back to the sentinel, see `claim_C1_cex`.) -/
theorem claim_C1 (d : ℕ → ℕ → ℚ) (m : ℚ) (nGen nRec : ℕ) (iGen0 iRec0 : IdxArr)
    (hgk : nGen ≤ kMaxJets) (hrk : nRec ≤ kMaxJets) :
    (∀ g, g < kMaxJets → ∀ r : ℕ,
        (GetClosestJets d m nGen nRec iGen0 iRec0).iRecIndex g = (r : Int) →
        (GetClosestJets d m nGen nRec iGen0 iRec0).iGenIndex r ≠ -1 →
        (GetClosestJets d m nGen nRec iGen0 iRec0).iGenIndex r = (g : Int)) ∧
    (∀ r, r < kMaxJets → ∀ g : ℕ,
        (GetClosestJets d m nGen nRec iGen0 iRec0).iGenIndex r = (g : Int) →
        (GetClosestJets d m nGen nRec iGen0 iRec0).iRecIndex g ≠ -1 →
        (GetClosestJets d m nGen nRec iGen0 iRec0).iRecIndex g = (r : Int)) := by
  by_cases hdeg : nGen = 0 ∨ nRec = 0
  · constructor
    · intro g hgK r hrec _
      rw [gcj_degenerate d m nGen nRec iGen0 iRec0 hdeg] at hrec
      have hval : initIndex iRec0 g = (r : Int) := hrec
      rw [initIndex] at hval
      rw [if_pos hgK] at hval
      omega
    · intro r hrK g hgen _
      rw [gcj_degenerate d m nGen nRec iGen0 iRec0 hdeg] at hgen
      have hval : initIndex iGen0 r = (g : Int) := hgen
      rw [initIndex] at hval
      rw [if_pos hrK] at hval
      omega
  · push_neg at hdeg
    have hg : 0 < nGen := Nat.pos_of_ne_zero hdeg.1
    have hr : 0 < nRec := Nat.pos_of_ne_zero hdeg.2
    constructor
    · intro g hgK r hrec hne
      by_cases hgn : g < nGen
      · rw [gcj_iRecIndex_lt d m nGen nRec iGen0 iRec0 hg hr hgk hrk g hgn] at hrec
        by_cases hf : flagVal d m nGen nRec g (nRec - 1) = 3
        · rw [if_pos hf] at hrec
          have hrval : r = nRec - 1 := by exact_mod_cast hrec.symm
          have hrn : r < nRec := by omega
          rw [gcj_iGenIndex_lt d m nGen nRec iGen0 iRec0 hg hr hgk hrk r hrn] at hne ⊢
          by_cases hf2 : flagVal d m nGen nRec (nGen - 1) r = 3
          · rw [if_pos hf2]
            have e1 := ((flagVal_three_iff d m nGen nRec g (nRec - 1)).mp hf).2.2
            have e2 := ((flagVal_three_iff d m nGen nRec (nGen - 1) r).mp hf2).2.2
            rw [hrval] at e2
            rw [← e1, e2]
          · rw [if_neg hf2] at hne
            exact absurd rfl hne
        · rw [if_neg hf] at hrec
          omega
      · rw [gcj_iRecIndex_ge d m nGen nRec iGen0 iRec0 hgk hrk g (by omega) hgK] at hrec
        omega
    · intro r hrK g hgen hne
      by_cases hrn : r < nRec
      · rw [gcj_iGenIndex_lt d m nGen nRec iGen0 iRec0 hg hr hgk hrk r hrn] at hgen
        by_cases hf : flagVal d m nGen nRec (nGen - 1) r = 3
        · rw [if_pos hf] at hgen
          have hgval : g = nGen - 1 := by exact_mod_cast hgen.symm
          have hgn : g < nGen := by omega
          rw [gcj_iRecIndex_lt d m nGen nRec iGen0 iRec0 hg hr hgk hrk g hgn] at hne ⊢
          by_cases hf2 : flagVal d m nGen nRec g (nRec - 1) = 3
          · rw [if_pos hf2]
            have e1 := ((flagVal_three_iff d m nGen nRec (nGen - 1) r).mp hf).1.2
            have e2 := ((flagVal_three_iff d m nGen nRec g (nRec - 1)).mp hf2).1.2
            rw [hgval] at e2
            rw [← e1, e2]
          · rw [if_neg hf2] at hne
            exact absurd rfl hne
        · rw [if_neg hf] at hgen
          omega
      · rw [gcj_iGenIndex_ge d m nGen nRec iGen0 iRec0 hgk hrk r (by omega) hrK] at hgen
        omega

theorem claim_C1_witness :
    (GetClosestJets dOne maxDist 1 1 negOne negOne).iGenIndex 0 = ((0 : ℕ) : Int) :=
  (claim_C1 dOne maxDist 1 1 negOne negOne (by decide) (by decide)).1 0 (by decide) 0
    (by decide) (by decide)

/-- Claim C4: a sub-grid cell whose flag after the two passes is not 3 is
never paired in the final output; in particular, on a 2×2 instance in which
no cell reaches flag 3 (the crossed-nearest-neighbour situation with no
reciprocal agreement), all four output slots end as the sentinel. -/
theorem claim_C4 (d : ℕ → ℕ → ℚ) (m : ℚ) (nGen nRec : ℕ) (iGen0 iRec0 : IdxArr)
    (hgk : nGen ≤ kMaxJets) (hrk : nRec ≤ kMaxJets) :
    (∀ g r, g < nGen → r < nRec →
        gcjFlag d m nGen nRec iGen0 iRec0 g r ≠ 3 →
        (GetClosestJets d m nGen nRec iGen0 iRec0).iRecIndex g ≠ (r : Int) ∧
        (GetClosestJets d m nGen nRec iGen0 iRec0).iGenIndex r ≠ (g : Int)) ∧
    (∀ (d2 : ℕ → ℕ → ℚ) (m2 : ℚ) (iGen02 iRec02 : IdxArr),
        (∀ g, g < 2 → ∀ r, r < 2 → gcjFlag d2 m2 2 2 iGen02 iRec02 g r ≠ 3) →
        (∀ g, g < 2 → (GetClosestJets d2 m2 2 2 iGen02 iRec02).iRecIndex g = -1) ∧
        (∀ r, r < 2 → (GetClosestJets d2 m2 2 2 iGen02 iRec02).iGenIndex r = -1)) := by
  constructor
  · intro g r hgn hrn hflag
    rw [gcjFlag_eq d m nGen nRec iGen0 iRec0 hgk hrk] at hflag
    have hg : 0 < nGen := by omega
    have hr : 0 < nRec := by omega
    constructor
    · rw [gcj_iRecIndex_lt d m nGen nRec iGen0 iRec0 hg hr hgk hrk g hgn]
      by_cases hf : flagVal d m nGen nRec g (nRec - 1) = 3
      · rw [if_pos hf]
        intro hc
        have : nRec - 1 = r := by exact_mod_cast hc
        rw [← this] at hflag
        exact hflag hf
      · rw [if_neg hf]
        intro hc
        omega
    · rw [gcj_iGenIndex_lt d m nGen nRec iGen0 iRec0 hg hr hgk hrk r hrn]
      by_cases hf : flagVal d m nGen nRec (nGen - 1) r = 3
      · rw [if_pos hf]
        intro hc
        have : nGen - 1 = g := by exact_mod_cast hc
        rw [← this] at hflag
        exact hflag hf
      · rw [if_neg hf]
        intro hc
        omega
  · intro d2 m2 iGen02 iRec02 hnone
    have h2k : (2 : ℕ) ≤ kMaxJets := by decide
    rw [gcjFlag_eq d2 m2 2 2 iGen02 iRec02 h2k h2k] at hnone
    constructor
    · intro g hgn
      rw [gcj_iRecIndex_lt d2 m2 2 2 iGen02 iRec02 (by omega) (by omega) h2k h2k g hgn]
      exact if_neg (hnone g hgn (2 - 1) (by omega))
    · intro r hrn
      rw [gcj_iGenIndex_lt d2 m2 2 2 iGen02 iRec02 (by omega) (by omega) h2k h2k r hrn]
      exact if_neg (hnone (2 - 1) (by omega) r hrn)

theorem claim_C4_witness :
    (GetClosestJets dFar maxDist 2 2 negOne negOne).iRecIndex 0 = -1 ∧
    (GetClosestJets dFar maxDist 2 2 negOne negOne).iRecIndex 1 = -1 :=
  have h := ((claim_C4 dOne maxDist 1 1 negOne negOne (by decide) (by decide)).2
    dFar maxDist negOne negOne (by decide)).1
  ⟨h 0 (by decide), h 1 (by decide)⟩

/-- Claim C5: on an empty side every one of the `kMaxJets` slots of both
output arrays is the sentinel, and the result does not depend on the
distance table or the threshold (no distance computation is performed). -/
theorem claim_C5 (d d2 : ℕ → ℕ → ℚ) (m m2 : ℚ) (nGen nRec : ℕ) (iGen0 iRec0 : IdxArr)
    (h : nGen = 0 ∨ nRec = 0) :
    (∀ i, i < kMaxJets →
        (GetClosestJets d m nGen nRec iGen0 iRec0).iGenIndex i = -1 ∧
        (GetClosestJets d m nGen nRec iGen0 iRec0).iRecIndex i = -1) ∧
    GetClosestJets d m nGen nRec iGen0 iRec0 = GetClosestJets d2 m2 nGen nRec iGen0 iRec0 := by
  constructor
  · intro i hi
    rw [gcj_degenerate d m nGen nRec iGen0 iRec0 h]
    constructor
    · show initIndex iGen0 i = -1
      simp [initIndex, hi]
    · show initIndex iRec0 i = -1
      simp [initIndex, hi]
  · rw [gcj_degenerate d m nGen nRec iGen0 iRec0 h,
      gcj_degenerate d2 m2 nGen nRec iGen0 iRec0 h]

theorem claim_C5_witness :
    (GetClosestJets dOne maxDist 0 1 negOne negOne).iGenIndex 7 = -1 ∧
    (GetClosestJets dOne maxDist 0 1 negOne negOne).iRecIndex 7 = -1 :=
  (claim_C5 dOne dFar maxDist maxDist 0 1 negOne negOne (Or.inl rfl)).1 7 (by decide)

/-- Claim C6: in each direction pass the recorded partner is the first jet
in scan order attaining the strictly smallest distance among candidates
strictly below the threshold 1.4 (`maxDist`): a candidate at exactly the
threshold is excluded, if some candidate is strictly below the threshold
one is recorded, and a later candidate at a distance equal to the current
best never replaces the earlier choice. -/
theorem claim_C6 (d : ℕ → ℕ → ℚ) (nGen nRec : ℕ) (iGen0 iRec0 : IdxArr)
    (hgk : nGen ≤ kMaxJets) (hrk : nRec ≤ kMaxJets) :
    (∀ g, g < nGen →
      ((fwdChoice d maxDist nGen nRec iRec0 g = -1 → ∀ r, r < nRec → maxDist ≤ d g r) ∧
       (∀ r : ℕ, fwdChoice d maxDist nGen nRec iRec0 g = (r : Int) →
         r < nRec ∧ d g r < maxDist ∧ (∀ j, j < nRec → d g r ≤ d g j) ∧
         (∀ j, j < r → d g r < d g j)))) ∧
    (∀ r, r < nRec →
      ((bwdChoice d maxDist nGen nRec iGen0 r = -1 → ∀ g, g < nGen → maxDist ≤ d g r) ∧
       (∀ g : ℕ, bwdChoice d maxDist nGen nRec iGen0 r = (g : Int) →
         g < nGen ∧ d g r < maxDist ∧ (∀ i, i < nGen → d g r ≤ d i r) ∧
         (∀ i, i < g → d g r < d i r)))) := by
  have hIR : ∀ g, g < nGen → initIndex iRec0 g = -1 := by
    intro g hg
    simp [initIndex, lt_of_lt_of_le hg hgk]
  have hIG : ∀ r, r < nRec → initIndex iGen0 r = -1 := by
    intro r hr
    simp [initIndex, lt_of_lt_of_le hr hrk]
  obtain ⟨hf1, _⟩ := fwdPass_eq d maxDist nRec (initIndex iRec0) iFlag0 nGen hIR
  obtain ⟨hb1, _⟩ := bwdPass_eq d maxDist nGen (initIndex iGen0) iFlag0 nRec hIG
  constructor
  · intro g hgn
    have hval : fwdChoice d maxDist nGen nRec iRec0 g = fwdBest d maxDist nRec g := by
      show (fwdPass d maxDist nRec (initIndex iRec0, iFlag0) nGen).1 g = _
      simp only [congrFun hf1 g]
      rw [if_pos hgn]
    rcases bestIdx_spec (fun r => d g r) maxDist nRec with ⟨h1, _, h3⟩ |
      ⟨j, hj, h1, _, h3, h4, h5⟩
    · constructor
      · intro _ r hrn
        exact h3 r hrn
      · intro r hcr
        exfalso
        rw [hval] at hcr
        have hm1 : fwdBest d maxDist nRec g = -1 := h1
        rw [hm1] at hcr
        omega
    · have hbj : fwdBest d maxDist nRec g = (j : Int) := h1
      constructor
      · intro hc
        exfalso
        rw [hval, hbj] at hc
        omega
      · intro r hcr
        rw [hval, hbj] at hcr
        have hrj : r = j := by exact_mod_cast hcr.symm
        subst hrj
        exact ⟨hj, h3, fun i hi => h4 i hi, fun i hi => h5 i hi⟩
  · intro r hrn
    have hval : bwdChoice d maxDist nGen nRec iGen0 r = bwdBest d maxDist nGen r := by
      show (bwdPass d maxDist nGen (initIndex iGen0, iFlag0) nRec).1 r = _
      simp only [congrFun hb1 r]
      rw [if_pos hrn]
    rcases bestIdx_spec (fun g => d g r) maxDist nGen with ⟨h1, _, h3⟩ |
      ⟨j, hj, h1, _, h3, h4, h5⟩
    · constructor
      · intro _ g hgn
        exact h3 g hgn
      · intro g hcg
        exfalso
        rw [hval] at hcg
        have hm1 : bwdBest d maxDist nGen r = -1 := h1
        rw [hm1] at hcg
        omega
    · have hbj : bwdBest d maxDist nGen r = (j : Int) := h1
      constructor
      · intro hc
        exfalso
        rw [hval, hbj] at hc
        omega
      · intro g hcg
        rw [hval, hbj] at hcg
        have hgj : g = j := by exact_mod_cast hcg.symm
        subst hgj
        exact ⟨hj, h3, fun i hi => h4 i hi, fun i hi => h5 i hi⟩

/-- A rational one half, in normalised constructor form. -/
def qHalf : ℚ := Rat.mk' 1 2 (by norm_num) (by norm_num)

/-- One generated jet and three reconstructed jets: the first candidate at
exactly the 1.4 threshold (excluded), the second and third tied strictly
below it (the earlier one must win). -/
def dW6 : ℕ → ℕ → ℚ := fun _ r => if r = 0 then maxDist else qHalf

theorem claim_C6_witness :
    1 < 3 ∧ dW6 0 1 < maxDist ∧ (∀ j, j < 3 → dW6 0 1 ≤ dW6 0 j) ∧
      (∀ j, j < 1 → dW6 0 1 < dW6 0 j) :=
  ((claim_C6 dW6 1 3 negOne negOne (by decide) (by decide)).1 0 (by decide)).2 1 (by decide)

/-- Claim C7: at entry both output arrays have all `kMaxJets` slots set to
the sentinel whatever the caller left there, and in the final output every
slot at or above the corresponding input count (and below the capacity)
holds the sentinel. -/
theorem claim_C7 (d : ℕ → ℕ → ℚ) (m : ℚ) (nGen nRec : ℕ) (iGen0 iRec0 : IdxArr)
    (hgk : nGen ≤ kMaxJets) (hrk : nRec ≤ kMaxJets) :
    (∀ i, i < kMaxJets → initIndex iGen0 i = -1 ∧ initIndex iRec0 i = -1) ∧
    (∀ r, nRec ≤ r → r < kMaxJets →
        (GetClosestJets d m nGen nRec iGen0 iRec0).iGenIndex r = -1) ∧
    (∀ g, nGen ≤ g → g < kMaxJets →
        (GetClosestJets d m nGen nRec iGen0 iRec0).iRecIndex g = -1) := by
  refine ⟨?_, ?_, ?_⟩
  · intro i hi
    constructor <;> simp [initIndex, hi]
  · intro r h1 h2
    exact gcj_iGenIndex_ge d m nGen nRec iGen0 iRec0 hgk hrk r h1 h2
  · intro g h1 h2
    exact gcj_iRecIndex_ge d m nGen nRec iGen0 iRec0 hgk hrk g h1 h2

theorem claim_C7_witness :
    (GetClosestJets dA maxDist 2 1 negOne negOne).iGenIndex 5 = -1 :=
  (claim_C7 dA maxDist 2 1 negOne negOne (by decide) (by decide)).2.1 5 (by decide)
    (by decide)

/-- Claim C8: a call of `GetClosestJets` leaves the two jet arrays and the
two counts passed by reference unchanged; its only writes are the two
caller-owned output index arrays. -/
theorem claim_C8 (s : CallState) :
    (GetClosestJetsCall s).genJets = s.genJets ∧
    (GetClosestJetsCall s).recJets = s.recJets ∧
    (GetClosestJetsCall s).nGenJets = s.nGenJets ∧
    (GetClosestJetsCall s).nRecJets = s.nRecJets ∧
    (GetClosestJetsCall s).iGenIndex =
      (GetClosestJets (fun g r => deltaRsq (s.genJets g) (s.recJets r)) maxDistSq
        s.nGenJets s.nRecJets s.iGenIndex s.iRecIndex).iGenIndex ∧
    (GetClosestJetsCall s).iRecIndex =
      (GetClosestJets (fun g r => deltaRsq (s.genJets g) (s.recJets r)) maxDistSq
        s.nGenJets s.nRecJets s.iGenIndex s.iRecIndex).iRecIndex :=
  ⟨rfl, rfl, rfl, rfl, rfl, rfl⟩

/-- Inversion helper: a non-sentinel `iGenIndex` slot below the capacity
forces both counts positive, the slot in range, flag 3 in the last
generated row, and the value `nGenJets - 1`. -/
theorem gcj_iGenIndex_ne (d : ℕ → ℕ → ℚ) (m : ℚ) (nGen nRec : ℕ) (iGen0 iRec0 : IdxArr)
    (hgk : nGen ≤ kMaxJets) (hrk : nRec ≤ kMaxJets) (r : ℕ) (hrK : r < kMaxJets)
    (hne : (GetClosestJets d m nGen nRec iGen0 iRec0).iGenIndex r ≠ -1) :
    0 < nGen ∧ 0 < nRec ∧ r < nRec ∧ flagVal d m nGen nRec (nGen - 1) r = 3 ∧
      (GetClosestJets d m nGen nRec iGen0 iRec0).iGenIndex r = ((nGen - 1 : ℕ) : Int) := by
  by_cases hdeg : nGen = 0 ∨ nRec = 0
  · exfalso
    apply hne
    rw [gcj_degenerate d m nGen nRec iGen0 iRec0 hdeg]
    show initIndex iGen0 r = -1
    simp [initIndex, hrK]
  · push_neg at hdeg
    have hg : 0 < nGen := Nat.pos_of_ne_zero hdeg.1
    have hr : 0 < nRec := Nat.pos_of_ne_zero hdeg.2
    by_cases hrn : r < nRec
    · rw [gcj_iGenIndex_lt d m nGen nRec iGen0 iRec0 hg hr hgk hrk r hrn] at hne ⊢
      by_cases hf : flagVal d m nGen nRec (nGen - 1) r = 3
      · rw [if_pos hf]
        exact ⟨hg, hr, hrn, hf, rfl⟩
      · rw [if_neg hf] at hne
        exact absurd rfl hne
    · exfalso
      apply hne
      exact gcj_iGenIndex_ge d m nGen nRec iGen0 iRec0 hgk hrk r (by omega) hrK

/-- Inversion helper, `iRecIndex` side. -/
theorem gcj_iRecIndex_ne (d : ℕ → ℕ → ℚ) (m : ℚ) (nGen nRec : ℕ) (iGen0 iRec0 : IdxArr)
    (hgk : nGen ≤ kMaxJets) (hrk : nRec ≤ kMaxJets) (g : ℕ) (hgK : g < kMaxJets)
    (hne : (GetClosestJets d m nGen nRec iGen0 iRec0).iRecIndex g ≠ -1) :
    0 < nGen ∧ 0 < nRec ∧ g < nGen ∧ flagVal d m nGen nRec g (nRec - 1) = 3 ∧
      (GetClosestJets d m nGen nRec iGen0 iRec0).iRecIndex g = ((nRec - 1 : ℕ) : Int) := by
  by_cases hdeg : nGen = 0 ∨ nRec = 0
  · exfalso
    apply hne
    rw [gcj_degenerate d m nGen nRec iGen0 iRec0 hdeg]
    show initIndex iRec0 g = -1
    simp [initIndex, hgK]
  · push_neg at hdeg
    have hg : 0 < nGen := Nat.pos_of_ne_zero hdeg.1
    have hr : 0 < nRec := Nat.pos_of_ne_zero hdeg.2
    by_cases hgn : g < nGen
    · rw [gcj_iRecIndex_lt d m nGen nRec iGen0 iRec0 hg hr hgk hrk g hgn] at hne ⊢
      by_cases hf : flagVal d m nGen nRec g (nRec - 1) = 3
      · rw [if_pos hf]
        exact ⟨hg, hr, hgn, hf, rfl⟩
      · rw [if_neg hf] at hne
        exact absurd rfl hne
    · exfalso
      apply hne
      exact gcj_iRecIndex_ge d m nGen nRec iGen0 iRec0 hgk hrk g (by omega) hgK

/-- Claim C9: every non-sentinel `iGenIndex` entry lies in
`[0, nGenJets)`, every non-sentinel `iRecIndex` entry lies in
`[0, nRecJets)`, and no index value appears in two distinct slots of the
same array. -/
theorem claim_C9 (d : ℕ → ℕ → ℚ) (m : ℚ) (nGen nRec : ℕ) (iGen0 iRec0 : IdxArr)
    (hgk : nGen ≤ kMaxJets) (hrk : nRec ≤ kMaxJets) :
    (∀ r, r < kMaxJets → (GetClosestJets d m nGen nRec iGen0 iRec0).iGenIndex r ≠ -1 →
        0 ≤ (GetClosestJets d m nGen nRec iGen0 iRec0).iGenIndex r ∧
        (GetClosestJets d m nGen nRec iGen0 iRec0).iGenIndex r < (nGen : Int)) ∧
    (∀ g, g < kMaxJets → (GetClosestJets d m nGen nRec iGen0 iRec0).iRecIndex g ≠ -1 →
        0 ≤ (GetClosestJets d m nGen nRec iGen0 iRec0).iRecIndex g ∧
        (GetClosestJets d m nGen nRec iGen0 iRec0).iRecIndex g < (nRec : Int)) ∧
    (∀ r r2, r < kMaxJets → r2 < kMaxJets →
        (GetClosestJets d m nGen nRec iGen0 iRec0).iGenIndex r ≠ -1 →
        (GetClosestJets d m nGen nRec iGen0 iRec0).iGenIndex r =
          (GetClosestJets d m nGen nRec iGen0 iRec0).iGenIndex r2 → r = r2) ∧
    (∀ g g2, g < kMaxJets → g2 < kMaxJets →
        (GetClosestJets d m nGen nRec iGen0 iRec0).iRecIndex g ≠ -1 →
        (GetClosestJets d m nGen nRec iGen0 iRec0).iRecIndex g =
          (GetClosestJets d m nGen nRec iGen0 iRec0).iRecIndex g2 → g = g2) := by
  refine ⟨?_, ?_, ?_, ?_⟩
  · intro r hrK hne
    obtain ⟨hg, _, _, _, hval⟩ := gcj_iGenIndex_ne d m nGen nRec iGen0 iRec0 hgk hrk r hrK hne
    rw [hval]
    constructor
    · exact Int.natCast_nonneg _
    · exact_mod_cast Nat.sub_lt hg Nat.one_pos
  · intro g hgK hne
    obtain ⟨_, hr, _, _, hval⟩ := gcj_iRecIndex_ne d m nGen nRec iGen0 iRec0 hgk hrk g hgK hne
    rw [hval]
    constructor
    · exact Int.natCast_nonneg _
    · exact_mod_cast Nat.sub_lt hr Nat.one_pos
  · intro r r2 hrK hr2K hne heq
    obtain ⟨hg, hr, hrn, hf, hval⟩ :=
      gcj_iGenIndex_ne d m nGen nRec iGen0 iRec0 hgk hrk r hrK hne
    have hne2 : (GetClosestJets d m nGen nRec iGen0 iRec0).iGenIndex r2 ≠ -1 := by
      rw [← heq, hval]
      omega
    obtain ⟨_, _, _, hf2, _⟩ :=
      gcj_iGenIndex_ne d m nGen nRec iGen0 iRec0 hgk hrk r2 hr2K hne2
    have e1 := ((flagVal_three_iff d m nGen nRec (nGen - 1) r).mp hf).1.2
    have e2 := ((flagVal_three_iff d m nGen nRec (nGen - 1) r2).mp hf2).1.2
    rw [e1] at e2
    exact_mod_cast e2
  · intro g g2 hgK hg2K hne heq
    obtain ⟨hg, hr, hgn, hf, hval⟩ :=
      gcj_iRecIndex_ne d m nGen nRec iGen0 iRec0 hgk hrk g hgK hne
    have hne2 : (GetClosestJets d m nGen nRec iGen0 iRec0).iRecIndex g2 ≠ -1 := by
      rw [← heq, hval]
      omega
    obtain ⟨_, _, _, hf2, _⟩ :=
      gcj_iRecIndex_ne d m nGen nRec iGen0 iRec0 hgk hrk g2 hg2K hne2
    have e1 := ((flagVal_three_iff d m nGen nRec g (nRec - 1)).mp hf).2.2
    have e2 := ((flagVal_three_iff d m nGen nRec g2 (nRec - 1)).mp hf2).2.2
    rw [e1] at e2
    exact_mod_cast e2

theorem claim_C9_witness :
    0 ≤ (GetClosestJets dOne maxDist 1 1 negOne negOne).iGenIndex 0 ∧
    (GetClosestJets dOne maxDist 1 1 negOne negOne).iGenIndex 0 < ((1 : ℕ) : Int) :=
  (claim_C9 dOne maxDist 1 1 negOne negOne (by decide) (by decide)).1 0 (by decide)
    (by decide)

/-! ### Claim C3: the two-generated-jets scenario -/

/-- The scenario's generated jets: `G0` at (η,φ) = (0, 0) with pT 20 and
`G1` at (0.5, 0.5) with pT 15 (slots beyond the count are never read). -/
def genC3 : ℕ → Jet := fun g => if g = 0 then ⟨0, 0, 20⟩ else ⟨1 / 2, 1 / 2, 15⟩

/-- The scenario's reconstructed jet `R0` at (η,φ) = (0.02, 0.01), pT 19.5. -/
def recC3 : ℕ → Jet := fun _ => ⟨1 / 50, 1 / 100, 39 / 2⟩

/-- The scenario's call state: two generated jets, one reconstructed jet. -/
def c3State : CallState :=
  { genJets := genC3, recJets := recC3, nGenJets := 2, nRecJets := 1,
    iGenIndex := negOne, iRecIndex := negOne }

/-- The scenario's squared-distance table in normalised constructor form:
`G0`–`R0` is 0.02² + 0.01² = 1/2000 and `G1`–`R0` is 0.48² + 0.49² =
941/2000, both strictly below the squared threshold 1.96. -/
def dC3lit : ℕ → ℕ → ℚ := fun g _ =>
  if g = 0 then Rat.mk' 1 2000 (by norm_num) (by norm_num)
  else Rat.mk' 941 2000 (by norm_num) (by norm_num)

theorem dC3_eq_lit : (fun g r => deltaRsq (genC3 g) (recC3 r)) = dC3lit := by
  funext g r
  by_cases hg : g = 0
  · subst hg
    norm_num [genC3, recC3, dC3lit, deltaRsq, Rat.mk'_eq_divInt, Rat.divInt_eq_div]
  · norm_num [genC3, recC3, dC3lit, deltaRsq, hg, Rat.mk'_eq_divInt, Rat.divInt_eq_div]

/-- Claim C3 (code bug): on the spec's scenario the code produces
`iRecIndex[0] = 0` and `iRecIndex[1] = -1` as expected, but
`iGenIndex[0] = -1` rather than the claimed 0 — the mutual match `G0 ↔ R0`
is accepted at consensus cell (0,0) and then the later cell (1,0), flag 1,
unconditionally overwrites `iGenIndex[0]` back to the sentinel,
contradicting the routine's own comment that every flag-3 cell matches
from both sides. -/
theorem claim_C3 :
    (GetClosestJetsCall c3State).iRecIndex 0 = 0 ∧
    (GetClosestJetsCall c3State).iRecIndex 1 = -1 ∧
    (GetClosestJetsCall c3State).iGenIndex 0 = -1 := by
  have h0 : (GetClosestJetsCall c3State).iRecIndex =
      (GetClosestJets dC3lit maxDistSq 2 1 negOne negOne).iRecIndex := by
    show (GetClosestJets (fun g r => deltaRsq (genC3 g) (recC3 r)) maxDistSq 2 1
      negOne negOne).iRecIndex = _
    rw [dC3_eq_lit]
  have h1 : (GetClosestJetsCall c3State).iGenIndex =
      (GetClosestJets dC3lit maxDistSq 2 1 negOne negOne).iGenIndex := by
    show (GetClosestJets (fun g r => deltaRsq (genC3 g) (recC3 r)) maxDistSq 2 1
      negOne negOne).iGenIndex = _
    rw [dC3_eq_lit]
  refine ⟨?_, ?_, ?_⟩
  · rw [h0]
    decide
  · rw [h0]
    decide
  · rw [h1]
    decide

/-! ### Claim C10: the heavy-flavour MC particle container -/

/-- `AliAODMCParticle` as the container observes it: PDG code, mother
index, primary flag and generator index (the remaining kinematic content
lives behind the external cut collaborators). -/
structure AliAODMCParticle where
  pdgCode : Int
  mother : Int
  isPrimary : Bool
  generatorIndex : Int
deriving DecidableEq

/-- `AliHFAODMCParticleContainer`: its own fields `fSpecialPDG`,
`fRejectedOrigin`, `fAcceptedDecay` plus the inherited `fGeneratorIndex`
and particle array `fClArray` that the two methods read. -/
structure AliHFAODMCParticleContainer where
  fSpecialPDG : Int
  fRejectedOrigin : ℕ
  fAcceptedDecay : ℕ
  fGeneratorIndex : Int
  fClArray : List AliAODMCParticle

/-- Modelled from the spec: the collaborators invoked by
`AcceptMCParticle` whose code is not among the sources — the analysis
engine's `CheckOrigin` and `CheckDecayChannel`, the kinematic cuts
`ApplyKinematicCuts`, and the base-class `AcceptMCParticle` — kept
opaque as oracle functions of the particle index. -/
structure ExternalHFCuts where
  checkOrigin : ℕ → ℕ
  checkDecayChannel : ℕ → ℕ
  applyKinematicCuts : ℕ → Bool
  acceptMCParticleBase : ℕ → Bool

/-- The value held by the local `rejectionReason` when the method returns:
untouched, the HF cut `kHFCut` (line 125), the generator cut
`kMCGeneratorCut` (line 115), or whatever an external collaborator wrote
into it. -/
inductive RejectionReason
  | rNone
  | rHFCut
  | rMCGeneratorCut
  | rExternal
deriving DecidableEq

/-- The mother-chain walk of `IsSpecialPDGDaughter` (lines 141–152): climb
`GetMother()` links, answering true at the first primary ancestor whose
absolute PDG code is the special one.  The C++ `while` loop is bounded
here by a fuel argument; a chain longer than the array length cycles, in
which case the C++ loop would not terminate. -/
def isSpecialPDGDaughterLoop (arr : List AliAODMCParticle) (specialPDG : Int) :
    AliAODMCParticle → ℕ → Bool
  | _, 0 => false
  | pm, fuel + 1 =>
      if pm.mother < 0 then false
      else
        match arr.get? pm.mother.toNat with
        | none => false
        | some pm2 =>
            if (pm2.pdgCode.natAbs : Int) = specialPDG ∧ pm2.isPrimary = true then true
            else isSpecialPDGDaughterLoop arr specialPDG pm2 fuel

/-- `AliHFAODMCParticleContainer::IsSpecialPDGDaughter` (lines 137–154):
with `fSpecialPDG == 0` it answers true immediately (line 139), otherwise
it walks the mother chain. -/
def IsSpecialPDGDaughter (c : AliHFAODMCParticleContainer)
    (part : AliAODMCParticle) : Bool :=
  if c.fSpecialPDG = 0 then true
  else isSpecialPDGDaughterLoop c.fClArray c.fSpecialPDG part (c.fClArray.length + 1)

/-- `AliHFAODMCParticleContainer::AcceptMCParticle(Int_t i)` (lines
89–131), returning the verdict together with the final value of the local
`rejectionReason`.  An out-of-range index dereferences a null pointer in
the C++ (undefined); the embedding returns a rejection with the reason
untouched.  Inside the special-PDG branch the recomputations of
`isSpecialPdg` from `CheckOrigin`/`CheckDecayChannel` (lines 101–107) do
not influence the result, because the branch returns in every case. -/
def AcceptMCParticle (c : AliHFAODMCParticleContainer) (ext : ExternalHFCuts)
    (i : ℕ) : Bool × RejectionReason :=
  match c.fClArray.get? i with
  | none => (false, RejectionReason.rNone)
  | some part =>
      let partPdgCode : Int := (part.pdgCode.natAbs : Int)
      if c.fSpecialPDG ≠ 0 ∧ partPdgCode = c.fSpecialPDG ∧ part.isPrimary = true then
        if c.fGeneratorIndex ≥ 0 ∧ c.fGeneratorIndex ≠ part.generatorIndex then
          (false, RejectionReason.rMCGeneratorCut)
        else
          (ext.applyKinematicCuts i, RejectionReason.rExternal)
      else if IsSpecialPDGDaughter c part then
        (false, RejectionReason.rHFCut)
      else
        (ext.acceptMCParticleBase i, RejectionReason.rExternal)

/-- The default constructor (lines 27–36): `fSpecialPDG(0)`,
`fRejectedOrigin(0)`, `fAcceptedDecay(0)`; the inherited array and
generator index are parameters of the model. -/
def defaultAliHFAODMCParticleContainer (arr : List AliAODMCParticle)
    (genIdx : Int) : AliHFAODMCParticleContainer :=
  { fSpecialPDG := 0, fRejectedOrigin := 0, fAcceptedDecay := 0,
    fGeneratorIndex := genIdx, fClArray := arr }

/-- Claim C10: with `fSpecialPDG = 0` (the default-constructed value)
`IsSpecialPDGDaughter` answers true for every particle, and
`AcceptMCParticle(Int_t i)` rejects every valid particle index with
reason `kHFCut` — no particle is ever accepted. -/
theorem claim_C10 (c : AliHFAODMCParticleContainer) (ext : ExternalHFCuts)
    (h : c.fSpecialPDG = 0) :
    (∀ arr genIdx, (defaultAliHFAODMCParticleContainer arr genIdx).fSpecialPDG = 0) ∧
    (∀ part, IsSpecialPDGDaughter c part = true) ∧
    (∀ i part, c.fClArray.get? i = some part →
        AcceptMCParticle c ext i = (false, RejectionReason.rHFCut)) := by
  refine ⟨fun _ _ => rfl, ?_, ?_⟩
  · intro part
    simp [IsSpecialPDGDaughter, h]
  · intro i part hget
    have hd : IsSpecialPDGDaughter c part = true := by
      simp [IsSpecialPDGDaughter, h]
    have hcond : ¬ (c.fSpecialPDG ≠ 0 ∧ ((part.pdgCode.natAbs : Int) = c.fSpecialPDG ∧
        part.isPrimary = true)) := by
      rintro ⟨hns, _⟩
      exact hns h
    simp only [AcceptMCParticle, hget]
    rw [if_neg hcond, if_pos hd]

/-- A lone primary D0 meson. -/
def pW : AliAODMCParticle := ⟨421, -1, true, 0⟩

/-- A default-constructed container holding just that particle. -/
def cW : AliHFAODMCParticleContainer := defaultAliHFAODMCParticleContainer [pW] 0

/-- Trivial external collaborators for the witness. -/
def extW : ExternalHFCuts := ⟨fun _ => 0, fun _ => 0, fun _ => true, fun _ => true⟩

theorem claim_C10_witness :
    IsSpecialPDGDaughter cW pW = true ∧
    AcceptMCParticle cW extW 0 = (false, RejectionReason.rHFCut) :=
  ⟨(claim_C10 cW extW rfl).2.1 pW, (claim_C10 cW extW rfl).2.2 0 pW rfl⟩

end AliPhysics
